import Mathlib

set_option maxRecDepth 100000

/-!
Verification of the repository content resolution engine of the
gitingest-mcp server (files src/gitingest_mcp/ingest.py and
src/gitingest_mcp/server.py), as a shallow embedding in Lean.

Strings are modelled by Lean String over List Char; Python string
operations used by the code (strip, split, lower, endswith, substring
membership, lexicographic comparison) are re-implemented structurally
below so that every definition evaluates inside the kernel.  Network
effects (the GitHub API, the gitingest collaborator) are modelled by
explicit oracle parameters, since the code under verification only
consumes their already-received values.
-/

namespace Gitingest

/-! ## Python string primitives -/

/-- Whitespace as recognised by Python str.strip and the regex class
backslash-s, restricted to the ASCII range used by this code base. -/
def pyIsSpace (c : Char) : Bool :=
  c = ' ' || c = '\t' || c = '\n' || c = '\r' || c = '\x0b' || c = '\x0c'

/-- Python str.strip: drop whitespace from both ends. -/
def pyStrip (l : List Char) : List Char :=
  ((l.dropWhile pyIsSpace).reverse.dropWhile pyIsSpace).reverse

/-- Python str.split(sep) for a one-character separator: always returns a
non-empty list of (possibly empty) segments. -/
def splitOnChar (sep : Char) : List Char → List (List Char)
  | [] => [[]]
  | c :: t =>
    let r := splitOnChar sep t
    if c = sep then [] :: r
    else
      match r with
      | [] => [[c]]
      | h :: rt => (c :: h) :: rt

/-- Python path.split("/")[-1]: the final path segment. -/
def lastSegment (l : List Char) : List Char :=
  (splitOnChar '/' l).getLastD []

/-- Python str.lower restricted to ASCII letters (the only case folding
exercised by the code). -/
def pyLower (l : List Char) : List Char :=
  l.map Char.toLower

/-- Python substring membership, needle in hay. -/
def containsSub (needle : List Char) : List Char → Bool
  | [] => needle.isPrefixOf []
  | c :: t => needle.isPrefixOf (c :: t) || containsSub needle t

/-- Python lexicographic string comparison (less or equal), by code point. -/
def lexLe : List Char → List Char → Bool
  | [], _ => true
  | _ :: _, [] => false
  | c :: s, d :: t =>
    if c.val.toNat < d.val.toNat then true
    else if d.val.toNat < c.val.toNat then false
    else lexLe s t

theorem containsSub_iff (needle hay : List Char) :
    containsSub needle hay = true ↔ needle <:+: hay := by
  induction hay with
  | nil =>
    simp [containsSub, List.isPrefixOf_iff_prefix, List.prefix_nil]
  | cons c t ih =>
    simp only [containsSub, Bool.or_eq_true, List.isPrefixOf_iff_prefix, ih]
    constructor
    · rintro (h | h)
      · exact h.isInfix
      · exact h.trans (List.suffix_cons c t).isInfix
    · intro h
      rcases List.infix_cons_iff.mp h with h | h
      · exact Or.inl h
      · exact Or.inr h

/-! ## Tree entries and the Path Resolver (_find_file_in_tree) -/

/-- One record of the GitHub recursive tree listing, with the two fields
the code reads: item["path"] and item["type"]. -/
structure TreeItem where
  path : String
  type : String
deriving DecidableEq

/-- A Python for-loop over the listing that returns the first item
satisfying the condition. -/
def scan_first (p : TreeItem → Bool) : List TreeItem → Option TreeItem
  | [] => none
  | item :: rest => if p item then some item else scan_first p rest

/-- ingest.py _find_file_in_tree: four sequential scans over the tree
data, each returning the first hit. -/
def find_file_in_tree (tree_data : List TreeItem) (requested_path : String) :
    Option String :=
  match scan_first (fun item =>
      item.type == "blob" && item.path == requested_path) tree_data with
  | some item => some item.path
  | none =>
    match scan_first (fun item =>
        item.type == "blob" &&
        lastSegment item.path.data == lastSegment requested_path.data) tree_data with
    | some item => some item.path
    | none =>
      match scan_first (fun item =>
          item.type == "blob" &&
          pyLower (lastSegment item.path.data) ==
            pyLower (lastSegment requested_path.data)) tree_data with
      | some item => some item.path
      | none =>
        match scan_first (fun item =>
            item.type == "blob" &&
            requested_path.data.isSuffixOf item.path.data) tree_data with
        | some item => some item.path
        | none => none

/-- Spec tier 1: exact equality between requested path and a tree entry
path (on file-kind entries). -/
def tier_exact (req : String) (item : TreeItem) : Bool :=
  item.type == "blob" && item.path == req

/-- Spec tier 2: equal final path segment, case-sensitively. -/
def tier_basename (req : String) (item : TreeItem) : Bool :=
  item.type == "blob" &&
  lastSegment item.path.data == lastSegment req.data

/-- Spec tier 3: equal final path segment, case-insensitively. -/
def tier_basename_ci (req : String) (item : TreeItem) : Bool :=
  item.type == "blob" &&
  pyLower (lastSegment item.path.data) == pyLower (lastSegment req.data)

/-- Spec tier 4: tree entry path ends with the full requested path as a
literal suffix. -/
def tier_suffix (req : String) (item : TreeItem) : Bool :=
  item.type == "blob" && req.data.isSuffixOf item.path.data

/-- Modelled from the spec wording of section 4.6: four tiers in order,
each returning the first entry in listing order that matches, absent when
no tier matches. -/
def path_resolver_spec (req : String) (tree_data : List TreeItem) :
    Option String :=
  (((tree_data.find? (tier_exact req)).map TreeItem.path).orElse fun _ =>
    ((tree_data.find? (tier_basename req)).map TreeItem.path).orElse fun _ =>
      ((tree_data.find? (tier_basename_ci req)).map TreeItem.path).orElse fun _ =>
        (tree_data.find? (tier_suffix req)).map TreeItem.path)

theorem scan_first_eq_find? (p : TreeItem → Bool) (l : List TreeItem) :
    scan_first p l = l.find? p := by
  induction l with
  | nil => rfl
  | cons a t ih => simp only [scan_first, List.find?_cons, ih]; split <;> simp_all

theorem find_file_in_tree_eq_spec (tree : List TreeItem) (req : String) :
    find_file_in_tree tree req = path_resolver_spec req tree := by
  rw [find_file_in_tree, path_resolver_spec]
  have e1 : (fun item : TreeItem => item.type == "blob" && item.path == req) =
      tier_exact req := rfl
  have e2 : (fun item : TreeItem => item.type == "blob" &&
      lastSegment item.path.data == lastSegment req.data) = tier_basename req := rfl
  have e3 : (fun item : TreeItem => item.type == "blob" &&
      pyLower (lastSegment item.path.data) == pyLower (lastSegment req.data)) =
      tier_basename_ci req := rfl
  have e4 : (fun item : TreeItem => item.type == "blob" &&
      req.data.isSuffixOf item.path.data) = tier_suffix req := rfl
  rw [scan_first_eq_find?, scan_first_eq_find?, scan_first_eq_find?,
    scan_first_eq_find?, e1, e2, e3, e4]
  cases tree.find? (tier_exact req) with
  | some it => rfl
  | none =>
    cases tree.find? (tier_basename req) with
    | some it => rfl
    | none =>
      cases tree.find? (tier_basename_ci req) with
      | some it => rfl
      | none => cases tree.find? (tier_suffix req) <;> rfl

theorem path_resolver_spec_none_iff (tree : List TreeItem) (req : String) :
    path_resolver_spec req tree = none ↔
      tree.find? (tier_exact req) = none ∧ tree.find? (tier_basename req) = none ∧
      tree.find? (tier_basename_ci req) = none ∧
      tree.find? (tier_suffix req) = none := by
  rw [path_resolver_spec]
  cases tree.find? (tier_exact req) <;>
    cases tree.find? (tier_basename req) <;>
      cases tree.find? (tier_basename_ci req) <;>
        cases tree.find? (tier_suffix req) <;>
          simp [Option.orElse]

/-- Claim C3: the Path Resolver applies exactly the four tiers in order
(exact path, case-sensitive basename, case-insensitive basename, literal
suffix), returns the first entry in listing order within the first
matching tier, returns absent when no tier matches, and resolving
"a.py" against ["src/a.py", "docs/a.py"] returns "src/a.py". -/
theorem find_file_in_tree_four_tiers :
    (∀ tree req, find_file_in_tree tree req = path_resolver_spec req tree) ∧
    (∀ tree req, find_file_in_tree tree req = none ↔
      ∀ item ∈ tree, tier_exact req item = false ∧ tier_basename req item = false ∧
        tier_basename_ci req item = false ∧ tier_suffix req item = false) ∧
    find_file_in_tree [⟨"src/a.py", "blob"⟩, ⟨"docs/a.py", "blob"⟩] "a.py" =
      some "src/a.py" := by
  refine ⟨find_file_in_tree_eq_spec, ?_, by decide⟩
  intro tree req
  rw [find_file_in_tree_eq_spec, path_resolver_spec_none_iff]
  simp only [List.find?_eq_none, Bool.not_eq_true]
  constructor
  · intro h item hm
    exact ⟨h.1 item hm, h.2.1 item hm, h.2.2.1 item hm, h.2.2.2 item hm⟩
  · intro h
    exact ⟨fun i hm => (h i hm).1, fun i hm => (h i hm).2.1,
      fun i hm => (h i hm).2.2.1, fun i hm => (h i hm).2.2.2⟩

/-- Claim C10: whenever the Path Resolver returns a canonical path, that
path belongs to a tree entry of file kind ("blob"); other kinds are never
matched, so a path naming only a directory resolves as absent. -/
theorem find_file_in_tree_blob_only :
    (∀ tree req q, find_file_in_tree tree req = some q →
      ∃ item ∈ tree, item.path = q ∧ item.type = "blob") ∧
    find_file_in_tree [⟨"docs", "tree"⟩, ⟨"docs/readme.md", "blob"⟩] "docs" =
      none := by
  refine ⟨?_, by decide⟩
  intro tree req q h
  rw [find_file_in_tree] at h
  have blob_of : ∀ (p : TreeItem → Bool) item,
      scan_first p tree = some item →
      (∀ x, p x = true → x.type == "blob") →
      ∃ it ∈ tree, it.path = item.path ∧ it.type = "blob" := by
    intro p item hfind hp
    rw [scan_first_eq_find?] at hfind
    refine ⟨item, List.mem_of_find?_eq_some hfind, rfl, ?_⟩
    have := hp item (List.find?_some hfind)
    exact eq_of_beq this
  revert h
  cases hs1 : scan_first (fun item =>
      item.type == "blob" && item.path == req) tree with
  | some item =>
    intro h
    cases h
    exact blob_of _ _ hs1 fun x hx => (Bool.and_eq_true ..).mp hx |>.1
  | none =>
  cases hs2 : scan_first (fun item =>
      item.type == "blob" &&
      lastSegment item.path.data == lastSegment req.data) tree with
  | some item =>
    intro h
    cases h
    exact blob_of _ _ hs2 fun x hx => (Bool.and_eq_true ..).mp hx |>.1
  | none =>
  cases hs3 : scan_first (fun item =>
      item.type == "blob" &&
      pyLower (lastSegment item.path.data) ==
        pyLower (lastSegment req.data)) tree with
  | some item =>
    intro h
    cases h
    exact blob_of _ _ hs3 fun x hx => (Bool.and_eq_true ..).mp hx |>.1
  | none =>
  cases hs4 : scan_first (fun item =>
      item.type == "blob" &&
      req.data.isSuffixOf item.path.data) tree with
  | some item =>
    intro h
    cases h
    exact blob_of _ _ hs4 fun x hx => (Bool.and_eq_true ..).mp hx |>.1
  | none => intro h; cases h

/-- Witness for C10 at a concrete input: resolving "a.py" against a
one-entry blob listing produces a path of a blob entry. -/
theorem find_file_in_tree_blob_only_witness :
    ∃ item ∈ [TreeItem.mk "src/a.py" "blob"],
      item.path = "src/a.py" ∧ item.type = "blob" :=
  find_file_in_tree_blob_only.1 [⟨"src/a.py", "blob"⟩] "a.py" "src/a.py"
    (by decide)

/-! ## Visibility Prober and Acquisition Orchestrator -/

/-- Credential and URL-parse state of a GitIngester, plus the one GitHub
metadata answer the visibility probe may receive: api_private = some b
models an HTTP 200 response whose body carries "private": b, while none
models a non-200 status or a network failure (both yield false). -/
structure IngesterEnv where
  github_token : Option String
  owner : Option String
  repo : Option String
  api_private : Option Bool

/-- Python truthiness of an optional string: None and "" are falsy. -/
def opt_truthy : Option String → Bool
  | none => false
  | some s => !(s == "")

/-- ingest.py _check_if_private_repo. -/
def check_if_private_repo (e : IngesterEnv) : Bool :=
  if !(opt_truthy e.owner) || !(opt_truthy e.repo) || !(opt_truthy e.github_token) then
    false
  else
    match e.api_private with
    | some b => b
    | none => false

/-- Result of a completed fetch_repo_data call: either the bulk Digest
triple or the Structured (API fallback) state. -/
inductive FetchOutcome where
  | digest (summary tree content : String)
  | structured
deriving DecidableEq

/-- ingest.py fetch_repo_data.  The bulk attempt and the structured
fallback are network effects, modelled by their already-received
outcomes: bulk is what the external ingest collaborator call produced,
fallback what _fetch_via_github_api would produce when invoked. -/
def fetch_repo_data (e : IngesterEnv)
    (bulk : Except String (String × String × String))
    (fallback : Except String Unit) : Except String FetchOutcome :=
  match bulk with
  | .ok (s, t, c) => .ok (.digest s t c)
  | .error err =>
    if opt_truthy e.github_token && opt_truthy e.owner && opt_truthy e.repo then
      match fallback with
      | .ok _ => .ok .structured
      | .error m =>
        .error ("Failed to fetch private repository via GitHub API: " ++ m)
    else .error err

/-- Claim C6: with no credential the Visibility Prober returns false, and
on a bulk failure the orchestrator propagates the original bulk failure
without attempting the structured fallback (the result is the original
error whatever the fallback would have produced). -/
theorem no_token_probe_false_and_no_fallback (e : IngesterEnv)
    (h : e.github_token = none) :
    check_if_private_repo e = false ∧
    ∀ err fallback, fetch_repo_data e (.error err) fallback = .error err := by
  constructor
  · rw [check_if_private_repo]
    simp [h, opt_truthy]
  · intro err fallback
    simp [fetch_repo_data, h, opt_truthy]

/-- Witness for C6 at a concrete environment with no token. -/
theorem no_token_probe_false_and_no_fallback_witness :
    check_if_private_repo ⟨none, some "o", some "r", some true⟩ = false ∧
    fetch_repo_data ⟨none, some "o", some "r", some true⟩
      (.error "bulk failed") (.ok ()) = .error "bulk failed" :=
  have h := no_token_probe_false_and_no_fallback
    ⟨none, some "o", some "r", some true⟩ rfl
  ⟨h.1, h.2 "bulk failed" (.ok ())⟩

/-! ## The canonical delimited document format (Content Assembler) -/

/-- The fixed delimiter line: 50 equals signs. -/
def delim50 : String := String.mk (List.replicate 50 '=')

/-- One delimited section of the canonical content document. -/
def section_text (path content : String) : String :=
  delim50 ++ "\nFile: " ++ path ++ "\n" ++ delim50 ++ "\n" ++ content

/-- The accumulation loop shared by all assembler paths: append each
section, inserting one blank line between consecutive sections
(Python: if concatenated, first add the separator). -/
def fold_join (secs : List String) (acc : String) : String :=
  secs.foldl (fun a s => (if a = "" then a else a ++ "\n\n") ++ s) acc

/-- Insertion-order keys of the Python result dictionary: the first
occurrence of each requested path. -/
def dedup_first (file_paths : List String) : List String :=
  file_paths.foldl (fun acc p => if p ∈ acc then acc else acc ++ [p]) []

/-- The result dictionary right after initialisation: every requested
path mapped to None. -/
def init_result (file_paths : List String) : List (String × Option String) :=
  (dedup_first file_paths).map fun p => (p, none)

/-- ingest.py _format_empty_result: every requested path receives the
not-found marker section. -/
def format_empty_result (file_paths : List String) : String :=
  (init_result file_paths).foldl
    (fun acc e =>
      (if acc = "" then acc else acc ++ "\n\n") ++
        section_text e.1 "File not found or no content available") ""

/-- One iteration of the final assembly loop: a path with a set slot
contributes its section, a None slot contributes nothing. -/
def concat_step (acc : String) (e : String × Option String) : String :=
  match e.2 with
  | none => acc
  | some c => (if acc = "" then acc else acc ++ "\n\n") ++ section_text e.1 c

/-- The final assembly loop of _get_files_content_sync and
_fetch_files_via_api. -/
def concat_sections (res : List (String × Option String)) : String :=
  res.foldl concat_step ""

theorem fold_join_acc_prefix (secs : List String) (acc : String) :
    ∃ t : List Char, (fold_join secs acc).data = acc.data ++ t := by
  induction secs generalizing acc with
  | nil => exact ⟨[], by simp [fold_join]⟩
  | cons s rest ih =>
    have step : fold_join (s :: rest) acc =
        fold_join rest ((if acc = "" then acc else acc ++ "\n\n") ++ s) := rfl
    rw [step]
    obtain ⟨t, ht⟩ := ih ((if acc = "" then acc else acc ++ "\n\n") ++ s)
    by_cases h : acc = ""
    · refine ⟨s.data ++ t, ?_⟩
      rw [ht]
      simp [h, String.data_append]
    · refine ⟨"\n\n".data ++ s.data ++ t, ?_⟩
      rw [ht]
      simp [h, String.data_append]

theorem mem_fold_join_sub {s : String} {secs : List String} (h : s ∈ secs)
    (acc : String) : s.data <:+: (fold_join secs acc).data := by
  induction secs generalizing acc with
  | nil => cases h
  | cons a rest ih =>
    have step : fold_join (a :: rest) acc =
        fold_join rest ((if acc = "" then acc else acc ++ "\n\n") ++ a) := rfl
    rw [step]
    rcases List.mem_cons.mp h with rfl | h2
    · obtain ⟨t, ht⟩ :=
        fold_join_acc_prefix rest ((if acc = "" then acc else acc ++ "\n\n") ++ s)
      rw [ht]
      have hsuf : s.data <:+ ((if acc = "" then acc else acc ++ "\n\n") ++ s).data := by
        rw [String.data_append]
        exact List.suffix_append _ _
      exact hsuf.isInfix.trans (List.prefix_append _ t).isInfix
    · exact ih h2 _

theorem section_text_data_ne_nil (p c : String) : (section_text p c).data ≠ [] := by
  simp [section_text, delim50, String.data_append]

theorem format_empty_eq_fold_join (fps : List String) :
    format_empty_result fps =
      fold_join ((dedup_first fps).map fun p =>
        section_text p "File not found or no content available") "" := by
  simp only [format_empty_result, init_result, fold_join, List.foldl_map]

theorem mem_foldl_dedup (l : List String) (acc : List String) (p : String) :
    (p ∈ l.foldl (fun acc q => if q ∈ acc then acc else acc ++ [q]) acc) ↔
      p ∈ acc ∨ p ∈ l := by
  induction l generalizing acc with
  | nil => simp
  | cons a t ih =>
    simp only [List.foldl_cons]
    rw [ih]
    by_cases ha : a ∈ acc
    · rw [if_pos ha]
      constructor
      · rintro (h | h)
        · exact Or.inl h
        · exact Or.inr (List.mem_cons_of_mem _ h)
      · rintro (h | h)
        · exact Or.inl h
        · rcases List.mem_cons.mp h with rfl | h
          · exact Or.inl ha
          · exact Or.inr h
    · rw [if_neg ha]
      simp only [List.mem_append, List.mem_cons, List.not_mem_nil, or_false]
      exact or_assoc

theorem mem_dedup_first_iff {p : String} {l : List String} :
    p ∈ dedup_first l ↔ p ∈ l := by
  rw [dedup_first, mem_foldl_dedup]
  simp

/-- Claim C7: for a non-empty request list, the empty-result path emits
one delimited not-found section per requested path; the output is never
the empty string and no requested path is omitted. -/
theorem format_empty_result_total (fps : List String) (h : fps ≠ []) :
    format_empty_result fps ≠ "" ∧
    ∀ p ∈ fps,
      (section_text p "File not found or no content available").data <:+:
        (format_empty_result fps).data := by
  have hinf : ∀ p ∈ fps,
      (section_text p "File not found or no content available").data <:+:
        (format_empty_result fps).data := by
    intro p hp
    rw [format_empty_eq_fold_join]
    exact mem_fold_join_sub
      (List.mem_map_of_mem
        (fun p => section_text p "File not found or no content available")
        (mem_dedup_first_iff.mpr hp)) ""
  refine ⟨?_, hinf⟩
  cases fps with
  | nil => exact absurd rfl h
  | cons a t =>
    intro hemp
    have h1 := hinf a (by simp)
    rw [hemp] at h1
    have h2 : (section_text a "File not found or no content available").data = [] :=
      List.sublist_nil.mp h1.sublist
    exact section_text_data_ne_nil _ _ h2

/-- Witness for C7 at the concrete request list of the spec. -/
theorem format_empty_result_total_witness :
    format_empty_result ["x.txt", "y.txt"] ≠ "" ∧
    (section_text "x.txt" "File not found or no content available").data <:+:
      (format_empty_result ["x.txt", "y.txt"]).data :=
  have h := format_empty_result_total ["x.txt", "y.txt"] (by decide)
  ⟨h.1, h.2 "x.txt" (by decide)⟩

/-! ## The Digest Section Parser (_get_files_content_sync)

The three regex patterns are embedded as anchored matchers.  A matcher
tries to match its pattern at the head of the given character list and
returns the number of characters consumed together with the captured
header-path group.  The greedy sub-patterns of the source regexes are
deterministic here: each greedy piece is followed by a literal that can
never occur inside the piece, so Python backtracking can only succeed at
the maximal extent (argued case by case in the comments below). -/

/-- A matcher anchored at the current position: on success, the length of
the match and the captured group. -/
def Matcher : Type := List Char → Option (Nat × List Char)

/-- Pattern 1, the exact fixed-width delimiter: 50 equals signs, newline,
the literal header prefix, the header path (one or more non-newline
characters), newline, 50 equals signs.  A repetition bounded exactly
consumes exactly 50 characters; whatever follows is left to the next
pattern element. -/
def matchFixed : Matcher := fun l =>
  if ((l.take 50).length = 50 && (l.take 50).all (· == '=')) then
    match l.drop 50 with
    | '\n' :: r2 =>
      if "File: ".data.isPrefixOf r2 then
        let r3 := r2.drop 6
        let grp := r3.takeWhile (· != '\n')
        if grp.isEmpty then none
        else
          match r3.drop grp.length with
          | '\n' :: r4 =>
            if ((r4.take 50).length = 50 && (r4.take 50).all (· == '=')) then
              some (50 + 1 + 6 + grp.length + 1 + 50, grp)
            else none
          | _ => none
      else none
    | _ => none
  else none

/-- Pattern 2, a delimiter of at least ten equals signs.  The greedy
repetition of equals signs must be maximal: giving characters back would
place an equals sign where the following literal newline is required, so
only the full run can match, and the trailing run is likewise consumed
greedily to the end of the run. -/
def matchMin10 : Matcher := fun l =>
  let run1 := l.takeWhile (· == '=')
  if run1.length < 10 then none
  else
    match l.drop run1.length with
    | '\n' :: r2 =>
      if "File: ".data.isPrefixOf r2 then
        let r3 := r2.drop 6
        let grp := r3.takeWhile (· != '\n')
        if grp.isEmpty then none
        else
          match r3.drop grp.length with
          | '\n' :: r4 =>
            let run2 := r4.takeWhile (· == '=')
            if run2.length < 10 then none
            else some (run1.length + 1 + 6 + grp.length + 1 + run2.length, grp)
          | _ => none
      else none
    | _ => none

/-- Pattern 3, the fully flexible whitespace-tolerant delimiter: one or
more equals signs, optional whitespace, the literal File colon header,
optional whitespace, the header path, then whitespace containing a final
newline immediately followed by one or more equals signs.  Greedy pieces
are again forced: the header literal starts with a non-whitespace letter,
the path group stops at the first newline, and the closing equals run can
only follow a newline that ends the whitespace run (every earlier newline
inside the run is followed by more whitespace, never by an equals
sign). -/
def matchFlex : Matcher := fun l =>
  let run1 := l.takeWhile (· == '=')
  if run1.isEmpty then none
  else
    let r1 := l.drop run1.length
    let ws1 := r1.takeWhile pyIsSpace
    let r2 := r1.drop ws1.length
    if "File:".data.isPrefixOf r2 then
      let r3 := r2.drop 5
      let ws2 := r3.takeWhile pyIsSpace
      let r4 := r3.drop ws2.length
      let grp := r4.takeWhile (· != '\n')
      if grp.isEmpty then none
      else
        let r5 := r4.drop grp.length
        let ws3 := r5.takeWhile pyIsSpace
        if ws3.isEmpty then none
        else if ws3.getLastD ' ' != '\n' then none
        else
          let r6 := r5.drop ws3.length
          let run2 := r6.takeWhile (· == '=')
          if run2.isEmpty then none
          else
            some (run1.length + ws1.length + 5 + ws2.length + grp.length +
              ws3.length + run2.length, grp)
    else none

/-- One step bound for the scan loops below: a successful match always
consumes at least one character, so scanning the positions of a text of
length n needs at most n + 1 steps. -/
def finditer_go (m : Matcher) (s : List Char) :
    Nat → Nat → List (Nat × Nat × List Char)
  | 0, _ => []
  | fuel + 1, pos =>
    match m (s.drop pos) with
    | some (len, grp) => (pos, len, grp) :: finditer_go m s fuel (pos + len)
    | none =>
      if pos < s.length then finditer_go m s fuel (pos + 1) else []

/-- re.finditer: all non-overlapping matches, scanning left to right and
resuming after the end of each match. -/
def finditer (m : Matcher) (s : List Char) : List (Nat × Nat × List Char) :=
  finditer_go m s (s.length + 1) 0

def research_go (m : Matcher) (s : List Char) : Nat → Nat → Option Nat
  | 0, _ => none
  | fuel + 1, pos =>
    match m (s.drop pos) with
    | some _ => some pos
    | none =>
      if pos < s.length then research_go m s fuel (pos + 1) else none

/-- re.search: the start position of the first match, if any. -/
def research (m : Matcher) (s : List Char) : Option Nat :=
  research_go m s (s.length + 1) 0

/-- The per-match section construction of _get_files_content_sync: the
header path is the stripped captured group and the body runs from the end
of the match to the start of the next match of the same pattern in the
remaining text (or to the end of the text), stripped. -/
def units_of (m : Matcher) (s : List Char) : List (String × String) :=
  (finditer m s).map fun t =>
    let endPos := t.1 + t.2.1
    let suffix := s.drop endPos
    let body :=
      match research m suffix with
      | some n => suffix.take n
      | none => suffix
    (String.mk (pyStrip t.2.2), String.mk (pyStrip body))

/-- The pattern trial loop: try each pattern in order and use the first
one that yields at least one match exclusively (the for loop with its
matched flag and break). -/
def first_matching (pats : List Matcher) (s : List Char) :
    List (String × String) :=
  match pats with
  | [] => []
  | m :: rest =>
    let u := units_of m s
    if u.isEmpty then first_matching rest s else u

/-- The three patterns in order of decreasing strictness. -/
def patterns : List Matcher := [matchFixed, matchMin10, matchFlex]

/-- The requested-path versus header-path comparison of the parser, in
source order: exact equality, header ending in slash plus requested path,
equal final path segment. -/
def parser_path_match (path filename : String) : Bool :=
  path == filename ||
  (('/' :: path.data).isSuffixOf filename.data) ||
  (lastSegment path.data == lastSegment filename.data)

/-- One parser unit applied to the result dictionary: every requested
path that matches the unit header is overwritten with the unit body. -/
def apply_unit (res : List (String × Option String)) (u : String × String) :
    List (String × Option String) :=
  res.map fun e => if parser_path_match e.1 u.1 then (e.1, some u.2) else e

/-- The parsing half of _get_files_content_sync: initialise every
requested path to None, pick the first pattern with a match, then run
the single linear scan over its units. -/
def extract_sections (content_str : String) (file_paths : List String) :
    List (String × Option String) :=
  (first_matching patterns content_str.data).foldl apply_unit
    (init_result file_paths)

/-- ingest.py _get_files_content_sync: parse, then assemble the found
sections. -/
def get_files_content_sync (file_paths : List String) (content_str : String) :
    String :=
  concat_sections (extract_sections content_str file_paths)

/-- ingest.py _get_files_content: the empty-content guard around the
synchronous extraction (Python: if not self.content).  The content slot
is None before acquisition and a string afterwards. -/
def get_files_content (content : Option String) (file_paths : List String) :
    String :=
  match content with
  | none => format_empty_result file_paths
  | some c =>
    if c = "" then format_empty_result file_paths
    else get_files_content_sync file_paths c

/-! ## Parser theorems -/

/-- Lookup of a requested path slot in the result dictionary. -/
def res_lookup (p : String) (res : List (String × Option String)) :
    Option (Option String) :=
  (res.find? fun e => e.1 == p).map fun e => e.2

theorem res_lookup_map_keys (p : String) (l : List String)
    (f : String → Option String) :
    res_lookup p (l.map fun q => (q, f q)) =
      if p ∈ l then some (f p) else none := by
  induction l with
  | nil => simp [res_lookup]
  | cons a t ih =>
    by_cases h : a = p
    · subst h
      simp [res_lookup, List.find?_cons]
    · have hb : (a == p) = false := beq_eq_false_iff_ne.mpr h
      have h2 : ¬ p = a := fun hh => h hh.symm
      rw [List.map_cons]
      have hstep : res_lookup p ((a, f a) :: t.map fun q => (q, f q)) =
          res_lookup p (t.map fun q => (q, f q)) := by
        simp [res_lookup, List.find?_cons, hb]
      rw [hstep, ih]
      simp [List.mem_cons, h2]

theorem res_lookup_apply_unit (p : String) (res : List (String × Option String))
    (u : String × String) :
    res_lookup p (apply_unit res u) =
      (res_lookup p res).map fun v =>
        if parser_path_match p u.1 then some u.2 else v := by
  induction res with
  | nil => rfl
  | cons e t ih =>
    obtain ⟨k, v⟩ := e
    by_cases hk : k = p
    · subst hk
      by_cases hm : parser_path_match k u.1
      · simp [res_lookup, apply_unit, List.find?_cons, hm]
      · simp [res_lookup, apply_unit, List.find?_cons, hm]
    · have hb : (k == p) = false := beq_eq_false_iff_ne.mpr hk
      have hstep2 : res_lookup p ((k, v) :: t) = res_lookup p t := by
        simp [res_lookup, List.find?_cons, hb]
      by_cases hm : parser_path_match k u.1
      · have hstep : res_lookup p (apply_unit ((k, v) :: t) u) =
            res_lookup p (apply_unit t u) := by
          simp [res_lookup, apply_unit, List.find?_cons, hb, hm]
        rw [hstep, ih, hstep2]
      · have hstep : res_lookup p (apply_unit ((k, v) :: t) u) =
            res_lookup p (apply_unit t u) := by
          simp [res_lookup, apply_unit, List.find?_cons, hb, hm]
        rw [hstep, ih, hstep2]

theorem res_lookup_foldl_units (units : List (String × String)) (p : String)
    (res : List (String × Option String)) (v0 : Option String)
    (h : res_lookup p res = some v0) :
    res_lookup p (units.foldl apply_unit res) =
      some (match (units.filter fun u => parser_path_match p u.1).getLast? with
        | some u => some u.2
        | none => v0) := by
  induction units generalizing res v0 with
  | nil => simpa using h
  | cons u rest ih =>
    simp only [List.foldl_cons, List.filter_cons]
    by_cases hm : parser_path_match p u.1
    · rw [if_pos hm]
      have h2 : res_lookup p (apply_unit res u) = some (some u.2) := by
        rw [res_lookup_apply_unit, h]
        simp [hm]
      rw [ih (apply_unit res u) (some u.2) h2]
      cases hfl : rest.filter fun u => parser_path_match p u.1 with
      | nil => simp
      | cons w ws =>
        cases hgl : (w :: ws).getLast? with
        | some x => rw [List.getLast?_cons_cons, hgl]
        | none => simp at hgl
    · rw [if_neg hm]
      have h2 : res_lookup p (apply_unit res u) = some v0 := by
        rw [res_lookup_apply_unit, h]
        simp [hm]
      exact ih (apply_unit res u) v0 h2

/-- Claim C5: for a requested path, the single linear scan leaves the
content of the last matching unit: the slot equals the last element of
the matching units, in scan order. -/
theorem extract_sections_last_match_wins (blob : String) (fps : List String)
    (p : String) (hp : p ∈ fps) :
    res_lookup p (extract_sections blob fps) =
      some ((((first_matching patterns blob.data).filter
        fun u => parser_path_match p u.1).getLast?).map fun u => u.2) := by
  have h0 : res_lookup p (init_result fps) = some none := by
    rw [init_result, res_lookup_map_keys]
    rw [if_pos (mem_dedup_first_iff.mpr hp)]
  rw [extract_sections, res_lookup_foldl_units _ p _ none h0]
  cases hfl : ((first_matching patterns blob.data).filter
      fun u => parser_path_match p u.1).getLast? with
  | none => simp
  | some w => simp

/-- Witness for C5: a blob with two units both headed a.txt leaves the
second body in the slot. -/
theorem extract_sections_last_match_wins_witness :
    res_lookup "a.txt"
      (extract_sections
        (concat_sections [("a.txt", some "first"), ("a.txt", some "second")])
        ["a.txt"]) = some (some "second") := by
  rw [extract_sections_last_match_wins
    (concat_sections [("a.txt", some "first"), ("a.txt", some "second")])
    ["a.txt"] "a.txt" (by decide)]
  decide

/-- Claim C4: the pattern trial loop uses the first pattern that yields
at least one match exclusively, never consulting later patterns, and
consults the next pattern only when a pattern yields no match at all;
a pattern yields a unit exactly when the underlying scan finds a
match. -/
theorem first_matching_uses_first_nonempty (m : Matcher) (rest : List Matcher)
    (s : List Char) :
    (units_of m s ≠ [] → first_matching (m :: rest) s = units_of m s) ∧
    (units_of m s = [] → first_matching (m :: rest) s = first_matching rest s) ∧
    (units_of m s = [] ↔ finditer m s = []) := by
  refine ⟨?_, ?_, ?_⟩
  · intro h
    cases hu : units_of m s with
    | nil => exact absurd hu h
    | cons a t => simp [first_matching, hu]
  · intro h
    simp [first_matching, h]
  · rw [units_of]
    simp

/-- Witness for C4: on a well-formed document the strict pattern matches
and is the one used. -/
theorem first_matching_uses_first_nonempty_witness :
    units_of matchFixed (concat_sections [("a.txt", some "hi")]).data ≠ [] ∧
    first_matching patterns (concat_sections [("a.txt", some "hi")]).data =
      units_of matchFixed (concat_sections [("a.txt", some "hi")]).data :=
  have h := first_matching_uses_first_nonempty matchFixed [matchMin10, matchFlex]
    (concat_sections [("a.txt", some "hi")]).data
  ⟨by decide, h.1 (by decide)⟩

/-- Claim C8: the assembled parser output contains sections only for
requested paths whose slot was set (unmatched paths contribute nothing,
with no marker), and the spec example: a document holding only a.txt,
requested with a.txt and c.txt, yields exactly the a.txt section. -/
theorem parser_silent_omission :
    (∀ res : List (String × Option String),
      concat_sections res = concat_sections (res.filter fun e => e.2.isSome)) ∧
    get_files_content_sync ["a.txt", "c.txt"]
      (concat_sections [("a.txt", some "hello")]) =
      section_text "a.txt" "hello" := by
  constructor
  · have hgen : ∀ (res : List (String × Option String)) (acc : String),
        res.foldl concat_step acc =
          (res.filter fun e => e.2.isSome).foldl concat_step acc := by
      intro res
      induction res with
      | nil => intro acc; rfl
      | cons e t ih =>
        intro acc
        cases he : e.2 with
        | none =>
          have : concat_step acc e = acc := by rw [concat_step, he]
          simp [List.filter_cons, he, this, ih]
        | some c => simp [List.filter_cons, he, ih]
    exact fun res => hgen res ""
  · decide

/-- Claim C2, amended to the concrete instance stated in the spec:
assembling a document for a.txt holding hello and b.txt holding world and
parsing it back for the same two paths recovers both contents
unchanged. -/
theorem roundtrip_hello_world :
    res_lookup "a.txt"
      (extract_sections
        (concat_sections [("a.txt", some "hello"), ("b.txt", some "world")])
        ["a.txt", "b.txt"]) = some (some "hello") ∧
    res_lookup "b.txt"
      (extract_sections
        (concat_sections [("a.txt", some "hello"), ("b.txt", some "world")])
        ["a.txt", "b.txt"]) = some (some "world") := by
  constructor <;> decide

/-- Counterexample to claim C2 as universally stated: the parser strips
each section body, so a content with trailing whitespace is not recovered
unchanged — here a.txt holds the six characters of hello plus a space but
the round trip returns the five-character hello. -/
theorem roundtrip_strips_whitespace_counterexample :
    res_lookup "a.txt"
      (extract_sections
        (concat_sections [("a.txt", some "hello "), ("b.txt", some "world")])
        ["a.txt", "b.txt"]) = some (some "hello") ∧
    ¬ res_lookup "a.txt"
      (extract_sections
        (concat_sections [("a.txt", some "hello "), ("b.txt", some "world")])
        ["a.txt", "b.txt"]) = some (some "hello ") := by
  constructor <;> decide

/-! ## Per-File API Fetcher and the caller-facing git_files operation -/

/-- The received GitHub contents response for one resolved path:
fileText is an HTTP 200 file payload that decodes to text, fileBinary a
payload whose body fails UTF-8 decoding, notFile a 200 payload of a
non-file type, httpError a non-200 status, and exn an exception raised
while handling this one file. -/
inductive ApiOutcome where
  | fileText (content : String)
  | fileBinary
  | notFile
  | httpError (status : Nat)
  | exn (msg : String)

/-- The body of the per-file loop of _fetch_files_via_api: resolve the
requested path in the tree, then fetch by canonical path; every branch
records a string, so no requested path is left unset. -/
def resolve_one (tree : List TreeItem) (oracle : String → ApiOutcome)
    (file_path : String) : String :=
  match find_file_in_tree tree file_path with
  | none =>
    "[File not found in repository tree. Available files can be seen with git_tree tool]"
  | some actual =>
    match oracle actual with
    | .fileText c => c
    | .fileBinary => "[Binary file - cannot display content]"
    | .notFile => "[Directory or unsupported file type]"
    | .httpError status =>
      "[File not found at path \x27" ++ actual ++ "\x27 - HTTP " ++
        toString status ++ "]"
    | .exn msg => "[Error fetching file: " ++ msg ++ "]"

/-- ingest.py _fetch_files_via_api: the result dictionary keyed by the
requested paths in first-occurrence order, every slot set by the loop
body, then assembled with the shared loop.  The enclosing construction of
the HTTP client is not modelled: the oracle stands for the already
received per-file responses. -/
def fetch_files_via_api (tree : List TreeItem) (oracle : String → ApiOutcome)
    (file_paths : List String) : String :=
  concat_sections ((dedup_first file_paths).map fun p =>
    (p, some (resolve_one tree oracle p)))

/-- server.py git_files comma-separated path parsing: split on commas,
strip each piece, keep the non-empty ones. -/
def parse_file_paths (s : String) : List String :=
  ((splitOnChar ',' s.data).map pyStrip).filterMap fun l =>
    if l.isEmpty then none else some (String.mk l)

/-- The state of a completed acquisition as observed by git_files:
either the digest path (bulk content blob) or the API path (tree data
present and a token set). -/
inductive AcqState where
  | digest (content : Option String)
  | api (tree : List TreeItem) (oracle : String → ApiOutcome)

/-- server.py git_files lines 113-122: refuse the assembled result when
it is empty or carries a not-found marker substring, otherwise return
it. -/
def git_files_check (files_content : String) : Except String String :=
  if files_content == ""
      || containsSub "File not found".data files_content.data
      || containsSub "[File not found".data files_content.data then
    Except.error "None of the requested files were found in the repository"
  else Except.ok files_content

/-- server.py git_files over a completed acquisition: the two input
guards (an all-whitespace argument also yields an empty parsed list, so
both guards are modelled faithfully), the path dispatch, and the final
check. -/
def git_files (st : AcqState) (file_paths : String) : Except String String :=
  if (pyStrip file_paths.data).isEmpty then
    Except.error "No file paths provided. Please specify at least one file path (e.g., \x27backend/README.md\x27 or \x27README.md,src/main.py\x27)."
  else
    let lst := parse_file_paths file_paths
    if lst.isEmpty then
      Except.error "No valid file paths found. Please specify at least one file path (e.g., \x27backend/README.md\x27 or \x27README.md,src/main.py\x27)."
    else
      match st with
      | .api tree oracle => git_files_check (fetch_files_via_api tree oracle lst)
      | .digest c => git_files_check (get_files_content c lst)

theorem concat_sections_eq_fold_join (res : List (String × Option String)) :
    concat_sections res =
      fold_join (res.filterMap fun e => e.2.map (section_text e.1)) "" := by
  have hgen : ∀ (res : List (String × Option String)) (acc : String),
      res.foldl concat_step acc =
        fold_join (res.filterMap fun e => e.2.map (section_text e.1)) acc := by
    intro res
    induction res with
    | nil => intro acc; rfl
    | cons e t ih =>
      intro acc
      obtain ⟨k, v⟩ := e
      cases v with
      | none => simp [List.filterMap_cons, concat_step, ih]
      | some c =>
        have h1 : concat_step acc (k, some c) =
            (if acc = "" then acc else acc ++ "\n\n") ++ section_text k c := rfl
        have h2 : ∀ rest,
            fold_join (section_text k c :: rest) acc =
              fold_join rest
                ((if acc = "" then acc else acc ++ "\n\n") ++ section_text k c) :=
          fun rest => rfl
        simp [List.filterMap_cons, h1, h2, ih]
  exact hgen res ""

theorem splitOnChar_ne_nil (sep : Char) (l : List Char) :
    splitOnChar sep l ≠ [] := by
  cases l with
  | nil => simp [splitOnChar]
  | cons c t =>
    rw [splitOnChar]
    by_cases h : c = sep
    · simp [h]
    · simp only [if_neg h]
      cases splitOnChar sep t <;> simp

theorem mem_splitOnChar_subset (sep : Char) (l : List Char) :
    ∀ seg ∈ splitOnChar sep l, ∀ c ∈ seg, c ∈ l := by
  induction l with
  | nil =>
    intro seg hseg c hc
    simp [splitOnChar] at hseg
    subst hseg
    cases hc
  | cons a t ih =>
    intro seg hseg c hc
    rw [splitOnChar] at hseg
    by_cases h : a = sep
    · rw [if_pos h] at hseg
      rcases List.mem_cons.mp hseg with rfl | hseg2
      · cases hc
      · exact List.mem_cons_of_mem _ (ih seg hseg2 c hc)
    · rw [if_neg h] at hseg
      cases hsp : splitOnChar sep t with
      | nil => exact absurd hsp (splitOnChar_ne_nil sep t)
      | cons hd rt =>
        rw [hsp] at hseg
        rcases List.mem_cons.mp hseg with rfl | hseg2
        · rcases List.mem_cons.mp hc with rfl | hc2
          · exact List.mem_cons_self _ _
          · exact List.mem_cons_of_mem _ (ih hd (hsp ▸ List.mem_cons_self hd rt) c hc2)
        · exact List.mem_cons_of_mem _
            (ih seg (hsp ▸ List.mem_cons_of_mem hd hseg2) c hc)

theorem pyStrip_eq_nil_of_all_space (l : List Char)
    (h : ∀ c ∈ l, pyIsSpace c = true) : pyStrip l = [] := by
  have h1 : l.dropWhile pyIsSpace = [] := List.dropWhile_eq_nil_iff.mpr h
  rw [pyStrip, h1]
  rfl

theorem all_space_of_pyStrip_eq_nil (l : List Char) (h : pyStrip l = []) :
    ∀ c ∈ l, pyIsSpace c = true := by
  rw [pyStrip] at h
  have h1 : (l.dropWhile pyIsSpace).reverse.dropWhile pyIsSpace = [] := by
    have := congrArg List.reverse h
    simpa using this
  have h2 : ∀ c ∈ (l.dropWhile pyIsSpace).reverse, pyIsSpace c = true :=
    List.dropWhile_eq_nil_iff.mp h1
  intro c hc
  rcases List.mem_append.mp
      ((@List.takeWhile_append_dropWhile _ pyIsSpace l) ▸ hc) with
    h3 | h3
  · exact List.mem_takeWhile_imp h3
  · exact h2 c (List.mem_reverse.mpr h3)

theorem parse_nonempty_strip_nonempty (csv : String)
    (h : parse_file_paths csv ≠ []) : (pyStrip csv.data).isEmpty = false := by
  by_contra hc
  have hnil : pyStrip csv.data = [] := by
    cases he : pyStrip csv.data with
    | nil => rfl
    | cons a t => rw [he] at hc; simp at hc
  have hall : ∀ c ∈ csv.data, pyIsSpace c = true :=
    all_space_of_pyStrip_eq_nil _ hnil
  apply h
  rw [parse_file_paths]
  apply List.filterMap_eq_nil_iff.mpr
  intro a ha
  obtain ⟨seg, hseg, rfl⟩ := List.mem_map.mp ha
  have hps : pyStrip seg = [] :=
    pyStrip_eq_nil_of_all_space seg fun c hc =>
      hall c (mem_splitOnChar_subset ',' csv.data seg hseg c hc)
  rw [hps]
  rfl

theorem marker_infix_not_found_section (p : String) :
    "[File not found".data <:+:
      (section_text p "[File not found in repository tree. Available files can be seen with git_tree tool]").data := by
  have h1 : "[File not found".data <+:
      "[File not found in repository tree. Available files can be seen with git_tree tool]".data := by
    decide
  have hassoc : section_text p
      "[File not found in repository tree. Available files can be seen with git_tree tool]" =
      (delim50 ++ "\nFile: " ++ p ++ "\n" ++ delim50 ++ "\n") ++
        "[File not found in repository tree. Available files can be seen with git_tree tool]" := rfl
  have h2 : "[File not found in repository tree. Available files can be seen with git_tree tool]".data <:+
      (section_text p "[File not found in repository tree. Available files can be seen with git_tree tool]").data := by
    rw [hassoc, String.data_append]
    exact List.suffix_append _ _
  exact h1.isInfix.trans h2.isInfix

/-- Claim C1, amended: git_files refuses the assembled document whenever
it is empty or contains a not-found marker substring; consequently, on
the structured API path, a single requested file missing from the tree
forces the structured error even when other requested files were found,
so the error is not reserved to the case where none were found.  The
document is returned exactly when it is non-empty and marker-free. -/
theorem git_files_api_error_on_any_missing
    (tree : List TreeItem) (oracle : String → ApiOutcome) (csv p : String)
    (hp : p ∈ parse_file_paths csv)
    (hmiss : find_file_in_tree tree p = none) :
    git_files (.api tree oracle) csv =
      .error "None of the requested files were found in the repository" ∧
    ∀ fc : String, fc ≠ "" →
      containsSub "File not found".data fc.data = false →
      containsSub "[File not found".data fc.data = false →
      git_files_check fc = .ok fc := by
  constructor
  · have hne : parse_file_paths csv ≠ [] := List.ne_nil_of_mem hp
    have hg1 : (pyStrip csv.data).isEmpty = false :=
      parse_nonempty_strip_nonempty csv hne
    have hg2 : (parse_file_paths csv).isEmpty = false := by
      cases hl : parse_file_paths csv with
      | nil => exact absurd hl hne
      | cons a t => rfl
    have hres : resolve_one tree oracle p =
        "[File not found in repository tree. Available files can be seen with git_tree tool]" := by
      rw [resolve_one, hmiss]
    have hmem : p ∈ dedup_first (parse_file_paths csv) :=
      mem_dedup_first_iff.mpr hp
    have hsec : section_text p
        "[File not found in repository tree. Available files can be seen with git_tree tool]" ∈
        (((dedup_first (parse_file_paths csv)).map fun q =>
          (q, some (resolve_one tree oracle q))).filterMap fun e =>
            e.2.map (section_text e.1)) := by
      apply List.mem_filterMap.mpr
      refine ⟨(p, some (resolve_one tree oracle p)), ?_, ?_⟩
      · exact List.mem_map_of_mem (fun q => (q, some (resolve_one tree oracle q))) hmem
      · rw [hres]
        rfl
    have hsub : "[File not found".data <:+:
        (fetch_files_via_api tree oracle (parse_file_paths csv)).data := by
      rw [fetch_files_via_api, concat_sections_eq_fold_join]
      exact (marker_infix_not_found_section p).trans (mem_fold_join_sub hsec "")
    have hcs : containsSub "[File not found".data
        (fetch_files_via_api tree oracle (parse_file_paths csv)).data = true :=
      (containsSub_iff _ _).mpr hsub
    rw [git_files]
    rw [hg1]
    simp only [Bool.false_eq_true, if_false, hg2, git_files_check, hcs,
      Bool.or_true]
    rfl
  · intro fc h1 h2 h3
    have hb : (fc == "") = false := beq_eq_false_iff_ne.mpr h1
    rw [git_files_check, hb, h2, h3]
    rfl

/-- Witness for the amended C1 at concrete inputs: a tree holding a.py,
requesting a.py and zzz.bin, errors; and a non-empty marker-free document
passes the check. -/
theorem git_files_api_error_on_any_missing_witness :
    git_files
      (.api [⟨"a.py", "blob"⟩] fun _ => ApiOutcome.fileText "print(1)")
      "a.py,zzz.bin" =
      .error "None of the requested files were found in the repository" ∧
    git_files_check "ok content" = .ok "ok content" :=
  have h := git_files_api_error_on_any_missing
    [⟨"a.py", "blob"⟩] (fun _ => ApiOutcome.fileText "print(1)")
    "a.py,zzz.bin" "zzz.bin" (by decide) (by decide)
  ⟨h.1, h.2 "ok content" (by decide) (by decide) (by decide)⟩

/-- Counterexample to claim C1 as stated: on the API path the file a.py
is requested, found in the tree, and fetched, yet the operation returns
the structured error because the other requested file is missing — the
error is not returned only when none of the requested files were
found. -/
theorem git_files_found_but_error_counterexample :
    find_file_in_tree [⟨"a.py", "blob"⟩] "a.py" = some "a.py" ∧
    resolve_one [⟨"a.py", "blob"⟩] (fun _ => ApiOutcome.fileText "print(1)")
      "a.py" = "print(1)" ∧
    git_files
      (.api [⟨"a.py", "blob"⟩] fun _ => ApiOutcome.fileText "print(1)")
      "a.py,zzz.bin" =
      .error "None of the requested files were found in the repository" := by
  exact ⟨by decide, by decide, rfl⟩

/-! ## Structured Tree Fetcher display tree (_build_tree_structure) -/

/-- Insert an item after every already-placed item whose path key is less
or equal, the insertion step of a stable ascending sort. -/
def insort_item (a : TreeItem) : List TreeItem → List TreeItem
  | [] => [a]
  | b :: t =>
    if lexLe b.path.data a.path.data then b :: insort_item a t
    else a :: b :: t

/-- Python sorted(tree_items, key=path): a stable ascending sort by the
path key under lexicographic code-point comparison, realised as insertion
sort (stable sorts by the same key agree pointwise). -/
def sort_by_path (items : List TreeItem) : List TreeItem :=
  items.foldl (fun acc x => insort_item x acc) []

/-- Python part.startswith of a one-character dot prefix; empty segments
do not start with a dot. -/
def seg_starts_dot (seg : List Char) : Bool :=
  match seg with
  | [] => false
  | c :: _ => c = '.'

/-- The filter of _build_tree_structure: file-kind entries whose path has
no segment starting with a dot and whose path does not contain the
components/ui noise subpath. -/
def keep_item (item : TreeItem) : Bool :=
  item.type == "blob" &&
  !((splitOnChar '/' item.path.data).any seg_starts_dot) &&
  !(containsSub "components/ui".data item.path.data)

/-- Python newline join. -/
def join_newline (lines : List String) : String :=
  match lines with
  | [] => ""
  | h :: t => t.foldl (fun acc s => acc ++ "\n" ++ s) h

/-- ingest.py _build_tree_structure: sort the received entries by path,
keep the filtered blob entries, join their paths with newlines. -/
def build_tree_structure (tree_items : List TreeItem) : String :=
  join_newline (((sort_by_path tree_items).filter keep_item).map TreeItem.path)

theorem lexLe_total (a b : List Char) : lexLe a b = true ∨ lexLe b a = true := by
  induction a generalizing b with
  | nil => exact Or.inl rfl
  | cons c s ih =>
    cases b with
    | nil => exact Or.inr rfl
    | cons d t =>
      rcases Nat.lt_trichotomy c.val.toNat d.val.toNat with h | h | h
      · exact Or.inl (by simp [lexLe, h])
      · have hns : ¬ c.val.toNat < d.val.toNat := by omega
        have hns2 : ¬ d.val.toNat < c.val.toNat := by omega
        rcases ih t with h2 | h2
        · exact Or.inl (by simp [lexLe, hns, hns2, h2])
        · exact Or.inr (by simp [lexLe, hns, hns2, h2])
      · exact Or.inr (by simp [lexLe, h])

theorem lexLe_trans (a b c : List Char) (hab : lexLe a b = true)
    (hbc : lexLe b c = true) : lexLe a c = true := by
  induction a generalizing b c with
  | nil => rfl
  | cons x s ih =>
    cases b with
    | nil => simp [lexLe] at hab
    | cons y t =>
      cases c with
      | nil => simp [lexLe] at hbc
      | cons z u =>
        rw [lexLe] at hab hbc ⊢
        by_cases h1 : x.val.toNat < y.val.toNat
        · by_cases h2 : y.val.toNat < z.val.toNat
          · have : x.val.toNat < z.val.toNat := by omega
            simp [this]
          · rw [if_neg h2] at hbc
            by_cases h3 : z.val.toNat < y.val.toNat
            · rw [if_pos h3] at hbc
              exact absurd hbc (by simp)
            · have : x.val.toNat < z.val.toNat := by omega
              simp [this]
        · rw [if_neg h1] at hab
          by_cases h1b : y.val.toNat < x.val.toNat
          · rw [if_pos h1b] at hab
            exact absurd hab (by simp)
          · rw [if_neg h1b] at hab
            by_cases h2 : y.val.toNat < z.val.toNat
            · have : x.val.toNat < z.val.toNat := by omega
              simp [this]
            · rw [if_neg h2] at hbc
              by_cases h3 : z.val.toNat < y.val.toNat
              · rw [if_pos h3] at hbc
                exact absurd hbc (by simp)
              · rw [if_neg h3] at hbc
                have h4 : ¬ x.val.toNat < z.val.toNat := by omega
                have h5 : ¬ z.val.toNat < x.val.toNat := by omega
                rw [if_neg h4, if_neg h5]
                exact ih t u hab hbc

theorem mem_insort_item {x a : TreeItem} {l : List TreeItem}
    (h : x ∈ insort_item a l) : x = a ∨ x ∈ l := by
  induction l with
  | nil => exact Or.inl (by simpa [insort_item] using h)
  | cons b t ih =>
    rw [insort_item] at h
    by_cases hc : lexLe b.path.data a.path.data
    · rw [if_pos hc] at h
      rcases List.mem_cons.mp h with rfl | h2
      · exact Or.inr (List.mem_cons_self _ _)
      · rcases ih h2 with h3 | h3
        · exact Or.inl h3
        · exact Or.inr (List.mem_cons_of_mem _ h3)
    · rw [if_neg hc] at h
      rcases List.mem_cons.mp h with rfl | h2
      · exact Or.inl rfl
      · exact Or.inr h2

theorem insort_item_pairwise (a : TreeItem) (l : List TreeItem)
    (h : l.Pairwise fun x y => lexLe x.path.data y.path.data = true) :
    (insort_item a l).Pairwise
      fun x y => lexLe x.path.data y.path.data = true := by
  induction l with
  | nil => simp [insort_item]
  | cons b t ih =>
    rw [insort_item]
    rcases List.pairwise_cons.mp h with ⟨hb, ht⟩
    by_cases hc : lexLe b.path.data a.path.data
    · rw [if_pos hc]
      refine List.pairwise_cons.mpr ⟨?_, ih ht⟩
      intro x hx
      rcases mem_insort_item hx with rfl | h2
      · exact hc
      · exact hb x h2
    · rw [if_neg hc]
      have hab : lexLe a.path.data b.path.data = true := by
        rcases lexLe_total a.path.data b.path.data with h2 | h2
        · exact h2
        · exact absurd h2 hc
      refine List.pairwise_cons.mpr ⟨?_, h⟩
      intro x hx
      rcases List.mem_cons.mp hx with rfl | h2
      · exact hab
      · exact lexLe_trans _ _ _ hab (hb x h2)

theorem insort_item_perm (a : TreeItem) (l : List TreeItem) :
    (insort_item a l).Perm (a :: l) := by
  induction l with
  | nil => exact List.Perm.refl _
  | cons b t ih =>
    rw [insort_item]
    by_cases hc : lexLe b.path.data a.path.data
    · rw [if_pos hc]
      exact (ih.cons b).trans (List.Perm.swap a b t)
    · rw [if_neg hc]

theorem sort_by_path_perm (items : List TreeItem) :
    (sort_by_path items).Perm items := by
  have hgen : ∀ (l acc : List TreeItem),
      (l.foldl (fun acc x => insort_item x acc) acc).Perm (acc ++ l) := by
    intro l
    induction l with
    | nil => intro acc; simp
    | cons x t ih =>
      intro acc
      have h1 := ih (insort_item x acc)
      have h2 : (insort_item x acc ++ t).Perm ((x :: acc) ++ t) :=
        (insort_item_perm x acc).append_right t
      have h3 : ((x :: acc) ++ t).Perm (acc ++ x :: t) :=
        List.perm_middle.symm
      exact (h1.trans h2).trans h3
  simpa using hgen items []

theorem sort_by_path_pairwise (items : List TreeItem) :
    (sort_by_path items).Pairwise
      fun x y => lexLe x.path.data y.path.data = true := by
  have hgen : ∀ (l acc : List TreeItem),
      acc.Pairwise (fun x y => lexLe x.path.data y.path.data = true) →
      (l.foldl (fun acc x => insort_item x acc) acc).Pairwise
        (fun x y => lexLe x.path.data y.path.data = true) := by
    intro l
    induction l with
    | nil => intro acc h; exact h
    | cons x t ih =>
      intro acc h
      exact ih (insort_item x acc) (insort_item_pairwise x acc h)
  exact hgen items [] List.Pairwise.nil

/-- Claim C9, amended: the display tree contains exactly the file-kind
entries passing the hidden-segment and noise-subpath filters, but joined
in ascending lexicographic order of full path — the code re-sorts the
provided entries by path (stably) instead of keeping the provided
order. -/
theorem build_tree_structure_sorted (items : List TreeItem) :
    build_tree_structure items =
      join_newline (((sort_by_path items).filter keep_item).map TreeItem.path) ∧
    (((sort_by_path items).filter keep_item).map TreeItem.path).Pairwise
      (fun a b : String => lexLe a.data b.data = true) ∧
    ((((sort_by_path items).filter keep_item).map TreeItem.path)).Perm
      ((items.filter keep_item).map TreeItem.path) := by
  refine ⟨rfl, ?_, ?_⟩
  · exact ((sort_by_path_pairwise items).filter keep_item).map TreeItem.path
      (fun a b h => h)
  · exact ((sort_by_path_perm items).filter keep_item).map TreeItem.path

/-- Counterexample to claim C9 as stated: two blob entries provided in
the order b.txt then a.txt are emitted re-sorted as a.txt then b.txt, not
in the provided order. -/
theorem build_tree_structure_reorders_counterexample :
    build_tree_structure [⟨"b.txt", "blob"⟩, ⟨"a.txt", "blob"⟩] =
      "a.txt\nb.txt" ∧
    build_tree_structure [⟨"b.txt", "blob"⟩, ⟨"a.txt", "blob"⟩] ≠
      "b.txt\na.txt" := by
  constructor <;> decide

end Gitingest
